import Mathlib

/-
Shallow embedding of the four-position rotary bin carousel firmware
(the deferred-command-queue variant: `src/unnamed/part_001` and the
`ESP32_InventoryOutputs.ino` sketch, which differ only in that the
sketch clears the command queue at the start of homing and emits a
CSV inventory log line).

Modelling conventions:
  * The firmware globals become the `Ctl` structure; every operation is a
    pure state transformer.
  * Hardware nondeterminism (index-switch seeks, driver pulses, ultrasonic
    block medians, serial arrival of the letter e) is an explicit oracle
    `Env`, consumed left to right.
  * `millis()` readings are `Nat`; the unsigned subtractions
    `now - earlier` of the source coincide with truncated `Nat`
    subtraction for a monotone clock.
  * The float expressions `(long)(normalGap * 0.60f + 0.5f)` and
    `(int)(mCount * 0.20f + 0.5f)` are exact over the reachable integer
    ranges (the fractional part of 0.6*g and 0.2*m is a multiple of 0.2,
    never 0.5, and the float rounding error is far below 0.1), so they are
    embedded as the exact integer computations (6*g+5)/10 and (2*m+5)/10.
  * Distances are rationals; an undefined reading (NAN) is `none`.
-/

namespace Carousel

/-- Global control state of the firmware (the mutable globals of the
sketch: e-stop latch, homing state, gate debounce state, lockout flags,
and the one-slot deferred command queue). -/
structure Ctl where
  estop : Bool
  homed : Bool
  currentBin : Int
  encoderGapThresholdSteps : Int
  beamStableBlocked : Bool
  beamLastRawBlocked : Bool
  beamLastChangeMs : Nat
  gateLockout : Bool
  gateOpenedAtMs : Nat
  inventoryPending : Bool
  lastSelectedBin : Int
  inventoryRequested : Bool
  binRequested : Bool
  requestedBin : Int
  deriving Repr, DecidableEq

/-- Outcome of one `seekNextPressEventCCW` call: success with the step
count it moved, failure by exceeding the step guard, or failure because
an e-stop byte arrived during the seek (which latches `estop`). -/
inductive SeekRes where
  | ok (steps : Nat)
  | guardFail
  | estopHit
  deriving Repr, DecidableEq

/-- Hardware oracle: outcomes of successive seeks, of successive
`applyIndexOffset` bursts (`true` means an e-stop byte arrived during the
burst), and, for each `readRobustDistance4sCm` call, the stream of block
medians of its 4 s window (`none` marks an e-stop arrival). -/
structure Env where
  seeks : List SeekRes
  offs : List Bool
  meas : List (List (Option ℚ))
  deriving Repr, DecidableEq

/-- One `seekNextPressEventCCW` call. Fails immediately when the latch is
already set (the first `stepPulseChecked` fails); otherwise the oracle
decides success (with the steps moved), guard overflow, or an e-stop
arrival that sets the latch. -/
def doSeek (env : Env) (s : Ctl) : Option Nat × Ctl × Env :=
  match env.seeks with
  | [] => (none, s, env)
  | r :: rest =>
    let env1 : Env := { env with seeks := rest }
    if s.estop then (none, s, env1)
    else
      match r with
      | .ok g => (some g, s, env1)
      | .guardFail => (none, s, env1)
      | .estopHit => (none, { s with estop := true }, env1)

/-- One `applyIndexOffset` call (a `stepCCW` burst of the fixed offset).
`stepCCW` fails only when the e-stop latch is or becomes set. -/
def doOffset (env : Env) (s : Ctl) : Bool × Ctl × Env :=
  if s.estop then (false, s, env)
  else
    match env.offs with
    | [] => (true, s, env)
    | b :: rest =>
      let env1 : Env := { env with offs := rest }
      if b then (false, { s with estop := true }, env1) else (true, s, env1)

/-- The successor of a bin index under one CCW bin advance, as computed by
`moveOneBin` (wrap from 3 to 0, else increment). -/
def binAdvance (c : Int) : Int :=
  if c = 3 then 0 else c + 1

/-- Source `moveOneBin()`: refuse when not homed; from bin 3 skip the encoder
artifact (two seeks) before the offset and wrap to 0; otherwise one seek
plus offset advances to `currentBin + 1`. -/
def moveOneBin (env : Env) (s : Ctl) : Bool × Ctl × Env :=
  if !s.homed then (false, s, env)
  else if s.currentBin = 3 then
    match doSeek env s with
    | (none, s1, e1) => (false, s1, e1)
    | (some _, s1, e1) =>
      match doSeek e1 s1 with
      | (none, s2, e2) => (false, s2, e2)
      | (some _, s2, e2) =>
        match doOffset e2 s2 with
        | (false, s3, e3) => (false, s3, e3)
        | (true, s3, e3) => (true, { s3 with currentBin := 0 }, e3)
  else
    match doSeek env s with
    | (none, s1, e1) => (false, s1, e1)
    | (some _, s1, e1) =>
      match doOffset e1 s1 with
      | (false, s2, e2) => (false, s2, e2)
      | (true, s2, e2) => (true, { s2 with currentBin := s2.currentBin + 1 }, e2)

/-- Source `moveBins(n)`: `n` successive `moveOneBin()` calls, stopping at the
first failure. The last component counts the `moveOneBin` invocations
actually issued. -/
def moveBins : Nat → Env → Ctl → Bool × Ctl × Env × Nat
  | 0, env, s => (true, s, env, 0)
  | n + 1, env, s =>
    match moveOneBin env s with
    | (false, s1, e1) => (false, s1, e1, 1)
    | (true, s1, e1) =>
      match moveBins n e1 s1 with
      | (ok, s2, e2, c) => (ok, s2, e2, c + 1)

/-- Source `moveToBin(target)`: validate homing and the target range, compute the
CCW step count `(target - current + 4) % 4` (both operands are in 0..3 on
every reachable call, where the C `%` agrees with `Int.emod`), treat 0 as
an immediate success, else issue that many `moveOneBin` calls. -/
def moveToBin (t : Int) (env : Env) (s : Ctl) : Bool × Ctl × Env × Nat :=
  if !s.homed then (false, s, env, 0)
  else if t < 0 ∨ 3 < t then (false, s, env, 0)
  else if ((t - s.currentBin + 4) % 4).toNat = 0 then (true, s, env, 0)
  else moveBins ((t - s.currentBin + 4) % 4).toNat env s

/-- Successive `moveToBin` calls, stopping at the first failure. -/
def moveSeq : List Int → Env → Ctl → Bool × Ctl × Env
  | [], env, s => (true, s, env)
  | t :: ts, env, s =>
    match moveToBin t env s with
    | (true, s1, e1, _) => moveSeq ts e1 s1
    | (false, s1, e1, _) => (false, s1, e1)

/-- Frame of every motion primitive: all state components except
`currentBin` are preserved, and `estop` can only be set, never cleared. -/
def MotionFrame (s s' : Ctl) : Prop :=
  s'.homed = s.homed ∧
  s'.encoderGapThresholdSteps = s.encoderGapThresholdSteps ∧
  s'.beamStableBlocked = s.beamStableBlocked ∧
  s'.beamLastRawBlocked = s.beamLastRawBlocked ∧
  s'.beamLastChangeMs = s.beamLastChangeMs ∧
  s'.gateLockout = s.gateLockout ∧
  s'.gateOpenedAtMs = s.gateOpenedAtMs ∧
  s'.inventoryPending = s.inventoryPending ∧
  s'.lastSelectedBin = s.lastSelectedBin ∧
  s'.inventoryRequested = s.inventoryRequested ∧
  s'.binRequested = s.binRequested ∧
  s'.requestedBin = s.requestedBin ∧
  (s.estop = true → s'.estop = true)

theorem motionFrame_rfl (s : Ctl) : MotionFrame s s := by
  unfold MotionFrame
  simp

theorem motionFrame_trans {a b c : Ctl} (h1 : MotionFrame a b) (h2 : MotionFrame b c) :
    MotionFrame a c := by
  unfold MotionFrame at *
  obtain ⟨e1, e2, e3, e4, e5, e6, e7, e8, e9, e10, e11, e12, e13⟩ := h1
  obtain ⟨f1, f2, f3, f4, f5, f6, f7, f8, f9, f10, f11, f12, f13⟩ := h2
  refine ⟨?_, ?_, ?_, ?_, ?_, ?_, ?_, ?_, ?_, ?_, ?_, ?_, ?_⟩ <;> simp_all

theorem doSeek_state_cases (env : Env) (s : Ctl) :
    (doSeek env s).2.1 = s ∨ (doSeek env s).2.1 = { s with estop := true } := by
  unfold doSeek
  rcases env with ⟨seeks, offs, meas⟩
  cases seeks with
  | nil => simp
  | cons r rest =>
    cases r <;> by_cases he : s.estop <;> simp [he]

theorem doSeek_some_state {env : Env} {s : Ctl} {g : Nat} {s' : Ctl} {e' : Env}
    (h : doSeek env s = (some g, s', e')) : s' = s := by
  unfold doSeek at h
  rcases env with ⟨seeks, offs, meas⟩
  cases seeks with
  | nil => simp at h
  | cons r rest =>
    cases r <;> by_cases he : s.estop <;> simp [he] at h <;> tauto

theorem doOffset_state_cases (env : Env) (s : Ctl) :
    (doOffset env s).2.1 = s ∨ (doOffset env s).2.1 = { s with estop := true } := by
  unfold doOffset
  rcases env with ⟨seeks, offs, meas⟩
  by_cases he : s.estop
  · simp [he]
  · cases offs with
    | nil => simp [he]
    | cons b rest => cases b <;> simp [he]

theorem doOffset_true_state {env : Env} {s : Ctl} {s' : Ctl} {e' : Env}
    (h : doOffset env s = (true, s', e')) : s' = s := by
  unfold doOffset at h
  rcases env with ⟨seeks, offs, meas⟩
  by_cases he : s.estop
  · simp [he] at h
  · cases offs with
    | nil => simp [he] at h; tauto
    | cons b rest => cases b <;> simp [he] at h <;> tauto

theorem estop_set_motionFrame (s : Ctl) : MotionFrame s { s with estop := true } := by
  unfold MotionFrame
  simp

theorem doSeek_frame (env : Env) (s : Ctl) : MotionFrame s (doSeek env s).2.1 := by
  rcases doSeek_state_cases env s with h | h <;> rw [h]
  · exact motionFrame_rfl s
  · exact estop_set_motionFrame s

theorem doOffset_frame (env : Env) (s : Ctl) : MotionFrame s (doOffset env s).2.1 := by
  rcases doOffset_state_cases env s with h | h <;> rw [h]
  · exact motionFrame_rfl s
  · exact estop_set_motionFrame s

theorem currentBin_set_motionFrame (s : Ctl) (c : Int) :
    MotionFrame s { s with currentBin := c } := by
  unfold MotionFrame
  simp

theorem moveOneBin_frame (env : Env) (s : Ctl) : MotionFrame s (moveOneBin env s).2.1 := by
  unfold moveOneBin
  split
  · exact motionFrame_rfl s
  · split
    · split
      next s1 e1 heq =>
        have := doSeek_frame env s; rw [heq] at this; exact this
      next g1 s1 e1 heq =>
        have f1 : MotionFrame s s1 := by
          have := doSeek_frame env s; rw [heq] at this; exact this
        split
        next s2 e2 heq2 =>
          have f2 : MotionFrame s1 s2 := by
            have := doSeek_frame e1 s1; rw [heq2] at this; exact this
          exact motionFrame_trans f1 f2
        next g2 s2 e2 heq2 =>
          have f2 : MotionFrame s1 s2 := by
            have := doSeek_frame e1 s1; rw [heq2] at this; exact this
          split
          next s3 e3 heq3 =>
            have f3 : MotionFrame s2 s3 := by
              have := doOffset_frame e2 s2; rw [heq3] at this; exact this
            exact motionFrame_trans f1 (motionFrame_trans f2 f3)
          next s3 e3 heq3 =>
            have f3 : MotionFrame s2 s3 := by
              have := doOffset_frame e2 s2; rw [heq3] at this; exact this
            exact motionFrame_trans f1 (motionFrame_trans f2
              (motionFrame_trans f3 (currentBin_set_motionFrame s3 0)))
    · split
      next s1 e1 heq =>
        have := doSeek_frame env s; rw [heq] at this; exact this
      next g1 s1 e1 heq =>
        have f1 : MotionFrame s s1 := by
          have := doSeek_frame env s; rw [heq] at this; exact this
        split
        next s2 e2 heq2 =>
          have f2 : MotionFrame s1 s2 := by
            have := doOffset_frame e1 s1; rw [heq2] at this; exact this
          exact motionFrame_trans f1 f2
        next s2 e2 heq2 =>
          have f2 : MotionFrame s1 s2 := by
            have := doOffset_frame e1 s1; rw [heq2] at this; exact this
          exact motionFrame_trans f1 (motionFrame_trans f2
            (currentBin_set_motionFrame s2 (s2.currentBin + 1)))

theorem moveOneBin_ok {env : Env} {s : Ctl} {s' : Ctl} {e' : Env}
    (h : moveOneBin env s = (true, s', e')) :
    s.homed = true ∧ s' = { s with currentBin := binAdvance s.currentBin } := by
  unfold moveOneBin at h
  split at h
  next hh => simp at h
  next hh =>
    have hhomed : s.homed = true := by revert hh; cases s.homed <;> simp
    refine ⟨hhomed, ?_⟩
    split at h
    next hc =>
      split at h
      next s1 e1 heq => simp at h
      next g1 s1 e1 heq =>
        have hs1 : s1 = s := doSeek_some_state heq
        split at h
        next s2 e2 heq2 => simp at h
        next g2 s2 e2 heq2 =>
          have hs2 : s2 = s1 := doSeek_some_state heq2
          split at h
          next s3 e3 heq3 => simp at h
          next s3 e3 heq3 =>
            have hs3 : s3 = s2 := doOffset_true_state heq3
            simp only [Prod.mk.injEq] at h
            rw [← h.2.1, hs3, hs2, hs1]
            unfold binAdvance
            simp [hc]
    next hc =>
      split at h
      next s1 e1 heq => simp at h
      next g1 s1 e1 heq =>
        have hs1 : s1 = s := doSeek_some_state heq
        split at h
        next s2 e2 heq2 => simp at h
        next s2 e2 heq2 =>
          have hs2 : s2 = s1 := doOffset_true_state heq2
          simp only [Prod.mk.injEq] at h
          rw [← h.2.1, hs2, hs1]
          unfold binAdvance
          simp [hc]

theorem moveBins_frame (n : Nat) (env : Env) (s : Ctl) :
    MotionFrame s (moveBins n env s).2.1 := by
  induction n generalizing env s with
  | zero => simpa [moveBins] using motionFrame_rfl s
  | succ n ih =>
    unfold moveBins
    split
    next s1 e1 heq =>
      have := moveOneBin_frame env s; rw [heq] at this; exact this
    next s1 e1 heq =>
      have f1 : MotionFrame s s1 := by
        have := moveOneBin_frame env s; rw [heq] at this; exact this
      split
      next ok2 s2 e2 c heq2 =>
        have f2 : MotionFrame s1 s2 := by
          have := ih e1 s1; rw [heq2] at this; exact this
        exact motionFrame_trans f1 f2

theorem moveBins_ok {n : Nat} {env : Env} {s : Ctl} {s' : Ctl} {e' : Env} {cnt : Nat}
    (h : moveBins n env s = (true, s', e', cnt)) :
    s'.currentBin = binAdvance^[n] s.currentBin ∧ cnt = n := by
  induction n generalizing env s cnt with
  | zero =>
    unfold moveBins at h
    cases h
    simp
  | succ n ih =>
    unfold moveBins at h
    split at h
    next s1 e1 heq => simp at h
    next s1 e1 heq =>
      split at h
      next ok2 s2 e2 c heq2 =>
        simp only [Prod.mk.injEq] at h
        obtain ⟨hok, hs, he, hc⟩ := h
        subst hok hs he
        obtain ⟨_, hadv⟩ := moveOneBin_ok heq
        obtain ⟨hbin, hcnt⟩ := ih heq2
        constructor
        · rw [hbin, hadv]
          simp [Function.iterate_succ_apply]
        · omega

theorem binAdvance_iterate (n : Nat) (c : Int) (h0 : 0 ≤ c) (h3 : c ≤ 3) :
    binAdvance^[n] c = (c + n) % 4 := by
  induction n with
  | zero => simp; omega
  | succ n ih =>
    rw [Function.iterate_succ_apply', ih]
    unfold binAdvance
    push_cast
    split <;> omega

theorem moveToBin_ok {t : Int} {env : Env} {s : Ctl} {s' : Ctl} {e' : Env} {cnt : Nat}
    (hc0 : 0 ≤ s.currentBin) (hc3 : s.currentBin ≤ 3)
    (h : moveToBin t env s = (true, s', e', cnt)) :
    s'.currentBin = t ∧ cnt = ((t - s.currentBin + 4) % 4).toNat ∧
    s.homed = true ∧ 0 ≤ t ∧ t ≤ 3 ∧ MotionFrame s s' := by
  unfold moveToBin at h
  by_cases hh : s.homed
  · by_cases ht : t < 0 ∨ 3 < t
    · simp [hh, ht] at h
    · push_neg at ht
      simp only [hh, Bool.not_true, Bool.false_eq_true, if_false, ht.1.not_lt, ht.2.not_lt,
        or_self, if_false] at h
      by_cases hz : ((t - s.currentBin + 4) % 4).toNat = 0
      · rw [if_pos hz] at h
        cases h
        refine ⟨?_, ?_, hh, ht.1, ht.2, motionFrame_rfl s⟩
        · omega
        · omega
      · rw [if_neg hz] at h
        have hfr : MotionFrame s s' := by
          have := moveBins_frame ((t - s.currentBin + 4) % 4).toNat env s
          rw [h] at this; exact this
        obtain ⟨hbin, hcnt⟩ := moveBins_ok h
        refine ⟨?_, hcnt.symm ▸ rfl, hh, ht.1, ht.2, hfr⟩
        rw [hbin, binAdvance_iterate _ _ hc0 hc3]
        omega
  · simp [hh] at h

theorem moveToBin_not_homed {t : Int} {env : Env} {s : Ctl} (hh : s.homed = false) :
    moveToBin t env s = (false, s, env, 0) := by
  unfold moveToBin
  simp [hh]

theorem moveToBin_bad_target {t : Int} {env : Env} {s : Ctl} (ht : t < 0 ∨ 3 < t) :
    moveToBin t env s = (false, s, env, 0) := by
  unfold moveToBin
  by_cases hh : s.homed <;> simp [hh, ht]

theorem moveSeq_last {ts : List Int} {env : Env} {s : Ctl} {s' : Ctl} {e' : Env}
    (hc0 : 0 ≤ s.currentBin) (hc3 : s.currentBin ≤ 3)
    (h : moveSeq ts env s = (true, s', e')) :
    ∀ tl, ts.getLast? = some tl → s'.currentBin = tl := by
  induction ts generalizing env s with
  | nil => simp
  | cons t ts ih =>
    intro tl htl
    unfold moveSeq at h
    rcases h1 : moveToBin t env s with ⟨ok1, s1, e1, c1⟩
    rw [h1] at h
    cases ok1 with
    | false => simp at h
    | true =>
      obtain ⟨hbin, _, _, ht0, ht3, hfr⟩ := moveToBin_ok hc0 hc3 h1
      cases ts with
      | nil =>
        simp only [moveSeq] at h
        simp only [List.getLast?_singleton, Option.some.injEq] at htl
        cases h
        rw [hbin, ← htl]
      | cons t2 ts2 =>
        have htl2 : (t2 :: ts2).getLast? = some tl := by
          simpa using htl
        exact ih (by omega) (by omega) h tl htl2

/-- Integer rounding of `normalGap * 0.60f + 0.5f` as the source stores it
into `encoderGapThresholdSteps` (exact for all reachable gap sizes). -/
def encThreshold (g : Nat) : Nat :=
  (6 * g + 5) / 10

/-- The element the source takes as the median of the 10 recorded gaps:
`qsort` ascending, then index `HOME_SAMPLE_EVENTS / 2` (the upper middle
element of an even-sized sample). -/
def medianUpper (l : List Nat) : Nat :=
  (List.insertionSort (· ≤ ·) l).getD (l.length / 2) 0

/-- The gap-sampling loop of `homeRoutine`: `n` further seeks recording the
step-count gap of each; any seek failure aborts homing. -/
def homeSample : Nat → Env → Ctl → Option (List Nat) × Ctl × Env
  | 0, env, s => (some [], s, env)
  | n + 1, env, s =>
    match doSeek env s with
    | (none, s1, e1) => (none, s1, e1)
    | (some g, s1, e1) =>
      match homeSample n e1 s1 with
      | (none, s2, e2) => (none, s2, e2)
      | (some gs, s2, e2) => (some (g :: gs), s2, e2)

/-- The final scan loop of `homeRoutine` over the remaining seek outcomes:
keep seeking until the first gap strictly below the threshold, then apply
the index offset and declare bin 0 homed. Returns the gaps it scanned. -/
def homeScanGo (thr : Int) (s : Ctl) (offs : List Bool) (meas : List (List (Option ℚ))) :
    List SeekRes → Bool × Ctl × Env × List Nat
  | [] => (false, s, ⟨[], offs, meas⟩, [])
  | r :: rest =>
    if s.estop then (false, s, ⟨rest, offs, meas⟩, [])
    else
      match r with
      | .guardFail => (false, s, ⟨rest, offs, meas⟩, [])
      | .estopHit => (false, { s with estop := true }, ⟨rest, offs, meas⟩, [])
      | .ok g =>
        if (g : Int) < thr then
          match doOffset ⟨rest, offs, meas⟩ s with
          | (false, s2, e2) => (false, s2, e2, [g])
          | (true, s2, e2) =>
            (true, { s2 with currentBin := 0, homed := true, lastSelectedBin := 0 }, e2, [g])
        else
          match homeScanGo thr s offs meas rest with
          | (ok, s2, e2, gs) => (ok, s2, e2, g :: gs)

/-- Wrapper of `homeScanGo` over a packaged oracle. -/
def homeScan (thr : Int) (env : Env) (s : Ctl) : Bool × Ctl × Env × List Nat :=
  homeScanGo thr s env.offs env.meas env.seeks

/-- Result of a homing attempt, with the recorded gap samples and the gaps
seen by the final scan as ghost output. -/
structure HomeResult where
  ok : Bool
  st : Ctl
  env : Env
  gaps : List Nat
  scanned : List Nat
  deriving Repr, DecidableEq

/-- Source `homeRoutine()` of `src/unnamed/part_001`: reset the homing state
(including an unconditional `estop = false`), discard the first press
event, record 10 gaps, store `round(median * 0.60)` as the short-gap
threshold, then scan for the first strictly shorter gap and declare BIN0
after the index offset. The reset of the homing state (including the
unconditional `estop = false` write) is factored as `homeReset`. -/
def homeReset (s : Ctl) : Ctl :=
  { s with estop := false, homed := false, currentBin := -1,
           encoderGapThresholdSteps := 0 }

def homeRoutine (env : Env) (s : Ctl) : HomeResult :=
  match doSeek env (homeReset s) with
  | (none, s1, e1) => ⟨false, s1, e1, [], []⟩
  | (some _, s1, e1) =>
    match homeSample 10 e1 s1 with
    | (none, s2, e2) => ⟨false, s2, e2, [], []⟩
    | (some gaps, s2, e2) =>
      match homeScan (encThreshold (medianUpper gaps) : Int) e2
          { s2 with encoderGapThresholdSteps := (encThreshold (medianUpper gaps) : Int) } with
      | (ok, s4, e4, scanned) => ⟨ok, s4, e4, gaps, scanned⟩

/-- Source `homeRoutine()` of the `.ino` sketch: identical except that it also
clears the deferred command queue before starting (the body then
coincides with the part_001 routine, whose initializer overwrites the
same remaining fields). -/
def homeRoutineIno (env : Env) (s : Ctl) : HomeResult :=
  homeRoutine env { s with inventoryRequested := false, binRequested := false,
                           requestedBin := -1 }

theorem homeSample_ok {n : Nat} {env : Env} {s : Ctl} {gs : List Nat} {s' : Ctl} {e' : Env}
    (h : homeSample n env s = (some gs, s', e')) : gs.length = n ∧ s' = s := by
  induction n generalizing env s gs s' e' with
  | zero =>
    unfold homeSample at h
    simp only [Prod.mk.injEq, Option.some.injEq] at h
    obtain ⟨h1, h2, _⟩ := h
    simp [← h1, h2]
  | succ n ih =>
    unfold homeSample at h
    split at h
    next s1 e1 heq => simp at h
    next g s1 e1 heq =>
      have hs1 : s1 = s := doSeek_some_state heq
      split at h
      next s2 e2 heq2 => simp at h
      next gs2 s2 e2 heq2 =>
        simp only [Prod.mk.injEq, Option.some.injEq] at h
        obtain ⟨h1, h2, _⟩ := h
        obtain ⟨hl, hst⟩ := ih heq2
        constructor
        · rw [← h1]; simp [hl]
        · rw [← h2, hst, hs1]

theorem homeScanGo_ok {thr : Int} {s : Ctl} {offs : List Bool}
    {meas : List (List (Option ℚ))} {seeks : List SeekRes}
    {s' : Ctl} {e' : Env} {gs : List Nat}
    (h : homeScanGo thr s offs meas seeks = (true, s', e', gs)) :
    s'.currentBin = 0 ∧ s'.homed = true ∧ s'.lastSelectedBin = 0 ∧
    s'.encoderGapThresholdSteps = s.encoderGapThresholdSteps ∧
    ∃ (pre : List Nat) (last : Nat), gs = pre ++ [last] ∧ (last : Int) < thr ∧
      ∀ g : Nat, g ∈ pre → ¬((g : Int) < thr) := by
  induction seeks generalizing gs with
  | nil => simp [homeScanGo] at h
  | cons r rest ih =>
    unfold homeScanGo at h
    split at h
    next hes => simp at h
    next hes =>
      match r with
      | .guardFail => simp at h
      | .estopHit => simp at h
      | .ok g =>
        simp only at h
        split at h
        next hlt =>
          split at h
          next s2 e2 heq2 => simp at h
          next s2 e2 heq2 =>
            have hs2 : s2 = s := doOffset_true_state heq2
            simp only [Prod.mk.injEq] at h
            obtain ⟨-, hst, -, hgs⟩ := h
            rw [← hst, hs2, ← hgs]
            refine ⟨rfl, rfl, rfl, rfl, [], g, by simp, hlt, by simp⟩
        next hlt =>
          rcases heq2 : homeScanGo thr s offs meas rest with ⟨ok2, s2, e2, gs2⟩
          rw [heq2] at h
          simp only [Prod.mk.injEq] at h
          obtain ⟨hok, hst, he, hgs⟩ := h
          subst hok
          subst hst
          subst he
          obtain ⟨c1, c2, c3, c4, pre, last, hsplit, hl, hpre⟩ := ih heq2
          refine ⟨c1, c2, c3, c4, g :: pre, last, ?_, hl, ?_⟩
          · rw [← hgs, hsplit]; rfl
          · intro x hx
            rcases List.mem_cons.mp hx with hx | hx
            · subst hx; exact hlt
            · exact hpre x hx

theorem encThreshold_floor (g : Nat) :
    encThreshold g = Nat.floor ((g : ℚ) * (6/10) + 1/2) := by
  unfold encThreshold
  rw [show ((g : ℚ) * (6/10) + 1/2) = ((6*g+5 : ℕ) : ℚ) / ((10:ℕ):ℚ) by push_cast; ring]
  rw [Nat.floor_div_nat]
  rw [Nat.floor_natCast]

theorem homeRoutine_ok_spec {env : Env} {s : Ctl} {st : Ctl} {e' : Env}
    {gaps scanned : List Nat}
    (heq : homeRoutine env s = ⟨true, st, e', gaps, scanned⟩) :
    gaps.length = 10 ∧
    st.encoderGapThresholdSteps = (encThreshold (medianUpper gaps) : Int) ∧
    st.currentBin = 0 ∧ st.homed = true ∧ st.lastSelectedBin = 0 ∧
    ∃ (pre : List Nat) (last : Nat), scanned = pre ++ [last] ∧
      ((last : Int) < st.encoderGapThresholdSteps ∧
       ∀ g : Nat, g ∈ pre → ¬((g : Int) < st.encoderGapThresholdSteps)) := by
  unfold homeRoutine at heq
  split at heq
  next s1 e1 hseek => simp at heq
  next g1 s1 e1 hseek =>
    split at heq
    next s2 e2 hsample => simp at heq
    next gaps2 s2 e2 hsample =>
      split at heq
      next ok4 s4 e4 sc4 hscan =>
        simp only [HomeResult.mk.injEq] at heq
        obtain ⟨hok, hst, he, hgaps, hsc⟩ := heq
        subst hok
        subst hst
        subst hgaps
        subst hsc
        obtain ⟨hlen, -⟩ := homeSample_ok hsample
        unfold homeScan at hscan
        obtain ⟨c1, c2, c3, c4, pre, last, hsplit, hl, hpre⟩ := homeScanGo_ok hscan
        refine ⟨hlen, ?_, c1, c2, c3, pre, last, hsplit, ?_, ?_⟩
        · rw [c4]
        · rw [c4]; exact hl
        · rw [c4]; exact hpre

/-- C2: while homed with a bin position in range, a successful
`moveToBin(t)` leaves `currentBin = t` and issues exactly
`(t - previous + 4) mod 4` `moveOneBin` invocations; a target equal to the
current bin is a no-op success; a target outside 0..3, or a call while not
homed, fails and changes nothing; and over any successful sequence of
calls `currentBin` ends at the most recent target. -/
theorem moveToBin_tracks_target (env : Env) (s : Ctl) (t : Int) :
    (s.homed = false → moveToBin t env s = (false, s, env, 0)) ∧
    ((t < 0 ∨ 3 < t) → moveToBin t env s = (false, s, env, 0)) ∧
    (0 ≤ s.currentBin → s.currentBin ≤ 3 →
      (∀ ok s2 e2 cnt, moveToBin t env s = (ok, s2, e2, cnt) → ok = true →
        s2.currentBin = t ∧ cnt = ((t - s.currentBin + 4) % 4).toNat) ∧
      (s.homed = true → s.currentBin = t → moveToBin t env s = (true, s, env, 0)) ∧
      (∀ ts : List Int, ∀ s3 e3, moveSeq ts env s = (true, s3, e3) →
        ∀ tl : Int, ts.getLast? = some tl → s3.currentBin = tl)) := by
  refine ⟨fun hh => moveToBin_not_homed hh, fun ht => moveToBin_bad_target ht,
    fun hc0 hc3 => ⟨?_, ?_, ?_⟩⟩
  · intro ok s2 e2 cnt hr hok
    subst hok
    obtain ⟨hbin, hcnt, -⟩ := moveToBin_ok hc0 hc3 hr
    exact ⟨hbin, hcnt⟩
  · intro hh hct
    have ht2 : ¬(t < 0 ∨ 3 < t) := by omega
    unfold moveToBin
    rw [hct]
    simp [hh, ht2]
  · intro ts s3 e3 hr tl htl
    exact moveSeq_last hc0 hc3 hr tl htl

/-- Environment fixture: three successful seeks and offset bursts. -/
def navEnvW : Env := ⟨[.ok 500, .ok 500, .ok 500], [false, false, false], []⟩

/-- State fixture: homed at BIN0, gate open and idle. -/
def navStateW : Ctl :=
  ⟨false, true, 0, 240, false, false, 0, false, 0, false, 0, false, false, -1⟩

theorem moveToBin_tracks_target_witness :
    (moveToBin 3 navEnvW navStateW).2.1.currentBin = 3 ∧
    (moveToBin 3 navEnvW navStateW).2.2.2 = ((3 - navStateW.currentBin + 4) % 4).toNat :=
  ((moveToBin_tracks_target navEnvW navStateW 3).2.2 (by decide) (by decide)).1
    (moveToBin 3 navEnvW navStateW).1 (moveToBin 3 navEnvW navStateW).2.1
    (moveToBin 3 navEnvW navStateW).2.2.1 (moveToBin 3 navEnvW navStateW).2.2.2
    rfl (by decide)

/-- C4: a successful `homeRoutine` has recorded exactly 10 gap samples
after the discarded first press event, stores
`round(median(gaps) * 0.6)` as the short-gap threshold (the median being
the sorted middle element the source takes), and declares BIN0 exactly at
the first scanned gap strictly below that threshold. -/
theorem homeRoutine_calibration (env : Env) (s : Ctl)
    (hok : (homeRoutine env s).ok = true) :
    (homeRoutine env s).gaps.length = 10 ∧
    (homeRoutine env s).st.encoderGapThresholdSteps =
      ((Nat.floor ((medianUpper (homeRoutine env s).gaps : ℚ) * (6/10) + 1/2) : Nat) : Int) ∧
    (∃ (pre : List Nat) (last : Nat),
      (homeRoutine env s).scanned = pre ++ [last] ∧
      (last : Int) < (homeRoutine env s).st.encoderGapThresholdSteps ∧
      ∀ g : Nat, g ∈ pre → ¬((g : Int) < (homeRoutine env s).st.encoderGapThresholdSteps)) ∧
    (homeRoutine env s).st.currentBin = 0 ∧ (homeRoutine env s).st.homed = true := by
  have heq : homeRoutine env s = ⟨(homeRoutine env s).ok, (homeRoutine env s).st,
      (homeRoutine env s).env, (homeRoutine env s).gaps, (homeRoutine env s).scanned⟩ := rfl
  rw [hok] at heq
  obtain ⟨hlen, hthr, hbin, hhomed, -, pre, last, hsplit, hl, hpre⟩ := homeRoutine_ok_spec heq
  refine ⟨hlen, ?_, ⟨pre, last, hsplit, hl, hpre⟩, hbin, hhomed⟩
  rw [hthr, encThreshold_floor]

/-- Environment fixture: a discarded first press, ten gaps of 400 steps,
then a short gap of 100 steps; offsets always succeed. -/
def homingEnvW : Env :=
  ⟨.ok 400 :: List.replicate 10 (SeekRes.ok 400) ++ [.ok 100], [], []⟩

/-- State fixture: freshly booted, nothing homed. -/
def homingStateW : Ctl :=
  ⟨false, false, -1, 0, false, false, 0, false, 0, false, -1, false, false, -1⟩

theorem homeRoutine_calibration_witness :
    (homeRoutine homingEnvW homingStateW).gaps.length = 10 ∧
    (homeRoutine homingEnvW homingStateW).st.encoderGapThresholdSteps =
      ((Nat.floor ((medianUpper (homeRoutine homingEnvW homingStateW).gaps : ℚ) * (6/10) + 1/2) : Nat) : Int) ∧
    (∃ (pre : List Nat) (last : Nat),
      (homeRoutine homingEnvW homingStateW).scanned = pre ++ [last] ∧
      (last : Int) < (homeRoutine homingEnvW homingStateW).st.encoderGapThresholdSteps ∧
      ∀ g : Nat, g ∈ pre →
        ¬((g : Int) < (homeRoutine homingEnvW homingStateW).st.encoderGapThresholdSteps)) ∧
    (homeRoutine homingEnvW homingStateW).st.currentBin = 0 ∧
    (homeRoutine homingEnvW homingStateW).st.homed = true :=
  homeRoutine_calibration homingEnvW homingStateW (by decide)

theorem homeRoutine_seeds_aux (env : Env) (s : Ctl)
    (hok : (homeRoutine env s).ok = true) :
    (homeRoutine env s).st.lastSelectedBin = 0 ∧
    (homeRoutine env s).st.currentBin = 0 ∧
    0 ≤ (homeRoutine env s).st.lastSelectedBin ∧
    (homeRoutine env s).st.lastSelectedBin ≤ 3 := by
  have heq : homeRoutine env s = ⟨(homeRoutine env s).ok, (homeRoutine env s).st,
      (homeRoutine env s).env, (homeRoutine env s).gaps, (homeRoutine env s).scanned⟩ := rfl
  rw [hok] at heq
  obtain ⟨-, -, hbin, -, hsel, -⟩ := homeRoutine_ok_spec heq
  exact ⟨hsel, hbin, by omega, by omega⟩

/-- C9: every successful homing run (both source variants) sets
`lastSelectedBin` to 0 along with `currentBin`, so the inventory
sequencer precondition `0 <= lastSelectedBin <= 3` holds immediately
after homing, before any bin-selection command. -/
theorem homeRoutine_seeds_lastSelectedBin (env : Env) (s : Ctl) :
    ((homeRoutine env s).ok = true →
      (homeRoutine env s).st.lastSelectedBin = 0 ∧
      (homeRoutine env s).st.currentBin = 0 ∧
      0 ≤ (homeRoutine env s).st.lastSelectedBin ∧
      (homeRoutine env s).st.lastSelectedBin ≤ 3) ∧
    ((homeRoutineIno env s).ok = true →
      (homeRoutineIno env s).st.lastSelectedBin = 0 ∧
      (homeRoutineIno env s).st.currentBin = 0 ∧
      0 ≤ (homeRoutineIno env s).st.lastSelectedBin ∧
      (homeRoutineIno env s).st.lastSelectedBin ≤ 3) := by
  constructor
  · exact homeRoutine_seeds_aux env s
  · unfold homeRoutineIno
    exact homeRoutine_seeds_aux env _

theorem homeRoutine_seeds_lastSelectedBin_witness :
    (homeRoutine homingEnvW homingStateW).st.lastSelectedBin = 0 ∧
    (homeRoutine homingEnvW homingStateW).st.currentBin = 0 ∧
    0 ≤ (homeRoutine homingEnvW homingStateW).st.lastSelectedBin ∧
    (homeRoutine homingEnvW homingStateW).st.lastSelectedBin ≤ 3 :=
  (homeRoutine_seeds_lastSelectedBin homingEnvW homingStateW).1 (by decide)

/-- State fixture with the e-stop latch set. -/
def estopStateW : Ctl :=
  ⟨true, false, -1, 0, false, false, 0, false, 0, false, -1, false, false, -1⟩

/-- C1 counterexample: `homeRoutine` begins with an unconditional
`estop = false`, so invoking it on a state whose latch is set clears the
latch in software, contradicting write-once-until-reset as stated. -/
theorem homeRoutine_clears_estop_latch :
    estopStateW.estop = true ∧
    (homeRoutine ⟨[], [], []⟩ estopStateW).st.estop = false := by
  decide

/-- Constant `MAX_BLOCKS` of `readRobustDistance4sCm`:
`US_WINDOW_MS / (US_BLOCK_SIZE * US_PING_PERIOD_MS) + 10` = 32. -/
def usMaxBlocks : Nat := 4000 / (7 * 25) + 10

/-- The per-end trim count of the robust average: the exact value of
`(int)(mCount * 0.20f + 0.5f)`, clamped by
`if (trim * 2 >= mCount) trim = (mCount - 1) / 2`. -/
def usTrimCount (m : Nat) : Nat :=
  if m ≤ 2 * ((2 * m + 5) / 10) then (m - 1) / 2 else (2 * m + 5) / 10

/-- Ascending sort standing for the `qsort` calls of the source. -/
def sortQ (l : List ℚ) : List ℚ := List.insertionSort (· ≤ ·) l

/-- Source `medianOfBlockCm()`: gather 7 valid pings from the echo stream and
return the middle element of the sorted block; the block loop only
terminates without 7 valid samples when the e-stop latch aborts it
(modelled as the stream running out), which yields NAN. -/
def medianOfBlockCm (pings : List (Option ℚ)) : Option ℚ :=
  if ((pings.filterMap id).take 7).length < 7 then none
  else some ((sortQ ((pings.filterMap id).take 7)).getD 3 0)

/-- The collection loop of `readRobustDistance4sCm` over the block-median
stream of one 4 s window: `none` marks an e-stop arrival (the only way a
block median is NAN), which aborts everything; the window expires when the
stream ends; at most `usMaxBlocks` medians are kept. Returns the collected
medians and whether the loop was aborted by the latch. -/
def collectMedians : List (Option ℚ) → List ℚ → List ℚ × Bool
  | [], acc => (acc, false)
  | none :: _, acc => (acc, true)
  | some m :: rest, acc =>
    if usMaxBlocks ≤ acc.length + 1 then (acc ++ [m], false)
    else collectMedians rest (acc ++ [m])

/-- The tail of `readRobustDistance4sCm`: fewer than 5 medians is an
undefined reading; otherwise sort, trim `usTrimCount` per end, and average
the survivors (`used <= 0` would also be undefined). -/
def robustFinalize (meds : List ℚ) : Option ℚ :=
  if meds.length < 5 then none
  else if meds.length - 2 * usTrimCount meds.length = 0 then none
  else some ((((sortQ meds).drop (usTrimCount meds.length)).take
      (meds.length - 2 * usTrimCount meds.length)).foldl (· + ·) 0 /
    ((meds.length - 2 * usTrimCount meds.length : Nat) : ℚ))

/-- Result of one `readRobustDistance4sCm` call, with the collected
medians and the abort flag as ghost output. -/
structure RobustResult where
  dist : Option ℚ
  st : Ctl
  meds : List ℚ
  aborted : Bool
  deriving Repr, DecidableEq

/-- Source `readRobustDistance4sCm()`: abort immediately when the latch is set;
otherwise collect block medians for the window and finalize. An e-stop
arrival mid-window latches `estop` and yields NAN. -/
def readRobustDistance4sCm (blocks : List (Option ℚ)) (s : Ctl) : RobustResult :=
  if s.estop then ⟨none, s, [], true⟩
  else
    match collectMedians blocks [] with
    | (meds, true) => ⟨none, { s with estop := true }, meds, true⟩
    | (meds, false) => ⟨robustFinalize meds, s, meds, false⟩

/-- The symmetric trimmed mean as the specification words it: drop `t`
elements at each end of the sorted list, average the remainder. -/
def trimmedMeanSpec (sorted : List ℚ) (t : Nat) : ℚ :=
  ((sorted.drop t).take (sorted.length - 2 * t)).foldl (· + ·) 0 /
    ((sorted.length - 2 * t : Nat) : ℚ)

theorem usTrimCount_round (m : Nat) (h5 : 5 ≤ m) :
    usTrimCount m = Nat.floor ((m : ℚ) * (2/10) + 1/2) ∧
    1 ≤ m - 2 * usTrimCount m := by
  have hfloor : Nat.floor ((m : ℚ) * (2/10) + 1/2) = (2 * m + 5) / 10 := by
    rw [show ((m : ℚ) * (2/10) + 1/2) = ((2*m+5 : ℕ) : ℚ) / ((10:ℕ):ℚ) by push_cast; ring]
    rw [Nat.floor_div_nat]
    rw [Nat.floor_natCast]
  have hnc : ¬(m ≤ 2 * ((2 * m + 5) / 10)) := by omega
  unfold usTrimCount
  rw [if_neg hnc, hfloor]
  omega

/-- C6: the robust 4 s distance is undefined whenever fewer than 5 valid
block medians were collected; on an unaborted run with at least 5 medians
it equals the symmetric trimmed mean of the sorted medians, the per-end
trim count being `round(count * 0.20)` (the clamp keeping at least one
survivor is inert there, and at least one element indeed survives). -/
theorem readRobustDistance_trimmed_mean (blocks : List (Option ℚ)) (s : Ctl) :
    ((readRobustDistance4sCm blocks s).meds.length < 5 →
      (readRobustDistance4sCm blocks s).dist = none) ∧
    ((readRobustDistance4sCm blocks s).aborted = false →
      5 ≤ (readRobustDistance4sCm blocks s).meds.length →
      usTrimCount (readRobustDistance4sCm blocks s).meds.length =
        Nat.floor (((readRobustDistance4sCm blocks s).meds.length : ℚ) * (2/10) + 1/2) ∧
      1 ≤ (readRobustDistance4sCm blocks s).meds.length -
        2 * usTrimCount (readRobustDistance4sCm blocks s).meds.length ∧
      (readRobustDistance4sCm blocks s).dist =
        some (trimmedMeanSpec (sortQ (readRobustDistance4sCm blocks s).meds)
          (usTrimCount (readRobustDistance4sCm blocks s).meds.length))) := by
  rcases hr : readRobustDistance4sCm blocks s with ⟨dist, st, meds, aborted⟩
  have hcases : (dist = none ∧ aborted = true ∧ meds = []) ∨
      (dist = none ∧ aborted = true) ∨ (dist = robustFinalize meds ∧ aborted = false) := by
    unfold readRobustDistance4sCm at hr
    split at hr
    · simp only [RobustResult.mk.injEq] at hr
      exact Or.inl ⟨hr.1.symm, hr.2.2.2.symm, hr.2.2.1.symm⟩
    · split at hr
      next meds2 heq2 =>
        simp only [RobustResult.mk.injEq] at hr
        exact Or.inr (Or.inl ⟨hr.1.symm, hr.2.2.2.symm⟩)
      next meds2 heq2 =>
        simp only [RobustResult.mk.injEq] at hr
        exact Or.inr (Or.inr ⟨hr.2.2.1 ▸ hr.1.symm, hr.2.2.2.symm⟩)
  constructor
  · intro hlen
    simp only
    rcases hcases with ⟨hd, -, -⟩ | ⟨hd, -⟩ | ⟨hd, -⟩
    · exact hd
    · exact hd
    · rw [hd]
      unfold robustFinalize
      rw [if_pos hlen]
  · intro hab hlen
    simp only at hab hlen ⊢
    rcases hcases with ⟨-, ha, -⟩ | ⟨-, ha⟩ | ⟨hd, -⟩
    · rw [ha] at hab; exact absurd hab (by simp)
    · rw [ha] at hab; exact absurd hab (by simp)
    · obtain ⟨hround, hsurv⟩ := usTrimCount_round meds.length hlen
      refine ⟨hround, hsurv, ?_⟩
      rw [hd]
      unfold robustFinalize
      rw [if_neg (by omega), if_neg (by omega)]
      unfold trimmedMeanSpec
      rw [show (sortQ meds).length = meds.length from List.length_insertionSort _ _]

/-- Measurement fixture: a window with only two valid block medians. -/
def shortMeasW : List (Option ℚ) := [some 10, some 11]

/-- Measurement fixture: five valid block medians of 20 cm. -/
def fullMeasW : List (Option ℚ) := [some 20, some 20, some 20, some 20, some 20]

/-- State fixture with the latch clear (the distance read only looks at
`estop`). -/
def idleStateW : Ctl :=
  ⟨false, true, 0, 240, false, false, 0, false, 0, true, 0, false, false, -1⟩

theorem readRobustDistance_trimmed_mean_witness :
    (readRobustDistance4sCm shortMeasW idleStateW).dist = none ∧
    (readRobustDistance4sCm fullMeasW idleStateW).dist =
      some (trimmedMeanSpec (sortQ (readRobustDistance4sCm fullMeasW idleStateW).meds)
        (usTrimCount (readRobustDistance4sCm fullMeasW idleStateW).meds.length)) :=
  ⟨(readRobustDistance_trimmed_mean shortMeasW idleStateW).1 (by decide),
   ((readRobustDistance_trimmed_mean fullMeasW idleStateW).2 (by decide) (by decide)).2.2⟩

/-- Events of a queue drain, in chronological order: a queued inventory
request was invoked (with its outcome), or a queued bin request was
invoked for bin `b` (with its outcome). -/
inductive QEvent where
  | inv (ok : Bool)
  | bin (b : Int) (ok : Bool)
  deriving Repr, DecidableEq

/-- Result of `runInventorySequence`, with the drain events it triggered,
the measured distance (ghost; `none` = never measured) and the arguments
handed to the inventory log line (ghost; `none` = no classification was
reported). -/
structure InvResult where
  ok : Bool
  st : Ctl
  env : Env
  trace : List QEvent
  dMeasured : Option (Option ℚ)
  logArgs : Option (Int × Bool)
  deriving Repr, DecidableEq

/-- Consume the block-median stream of the next measurement window. -/
def takeMeas (env : Env) : List (Option ℚ) × Env :=
  match env.meas with
  | [] => ([], env)
  | b :: rest => (b, { env with meas := rest })

/-- Source `runInventorySequence()`: preconditions homed, beam not blocked,
inventory pending, valid `lastSelectedBin`; rotate two bins to the
sensor, take the robust distance, classify `HI` iff the distance is
defined and below 12 cm (`LO` otherwise, also for an undefined reading),
clear `inventoryPending`, and drain the queue (the drain is passed in as
a function, tying the drain/inventory knot structurally). An e-stop
observed after the measurement aborts before any classification. -/
def runInventorySequenceWith (drain : Env → Ctl → Ctl × Env × List QEvent)
    (env : Env) (s : Ctl) : InvResult :=
  if !s.homed then ⟨false, s, env, [], none, none⟩
  else if s.beamStableBlocked then ⟨false, s, env, [], none, none⟩
  else if !s.inventoryPending then ⟨false, s, env, [], none, none⟩
  else if s.lastSelectedBin < 0 ∨ 3 < s.lastSelectedBin then ⟨false, s, env, [], none, none⟩
  else
    match moveBins 2 env s with
    | (false, s1, e1, _) => ⟨false, s1, e1, [], none, none⟩
    | (true, s1, e1, _) =>
      match takeMeas e1 with
      | (blocks, e2) =>
        match readRobustDistance4sCm blocks s1 with
        | ⟨d, st1, _, _⟩ =>
          if st1.estop then ⟨false, st1, e2, [], some d, none⟩
          else
            match drain e2 { st1 with inventoryPending := false } with
            | (s4, e4, tr) =>
              ⟨true, s4, e4, tr, some d,
               some (s.lastSelectedBin,
                 match d with
                 | none => false
                 | some q => decide (q < 12))⟩

/-- Source `tryRunQueuedCommands()`: no-op under e-stop; if an inventory request
is queued and the gate is inventory-pending (not blocked, not re-arming),
clear the flag, run the inventory and return without attempting the bin
request; otherwise, if a bin request is queued and the gate is neither
locked out nor inventory-pending, clear the request and run the move,
recording `lastSelectedBin` on success. The fuel argument only bounds the
drain/inventory mutual recursion; it is never exhausted on a reachable
path because each inventory run clears the flags that could re-enter it. -/
def tryRunQueuedCommands : Nat → Env → Ctl → Ctl × Env × List QEvent
  | 0, _env, s => (s, _env, [])
  | fuel + 1, env, s =>
    if s.estop then (s, env, [])
    else if s.inventoryRequested && s.inventoryPending && !s.gateLockout
        && !s.beamStableBlocked then
      match runInventorySequenceWith (tryRunQueuedCommands fuel) env
          { s with inventoryRequested := false } with
      | r => (r.st, r.env, QEvent.inv r.ok :: r.trace)
    else if s.binRequested && !s.gateLockout && !s.inventoryPending then
      match moveToBin s.requestedBin env
          { s with binRequested := false, requestedBin := -1 } with
      | (true, s2, e2, _) =>
        ({ s2 with lastSelectedBin := s.requestedBin }, e2,
         [QEvent.bin s.requestedBin true])
      | (false, s2, e2, _) => (s2, e2, [QEvent.bin s.requestedBin false])
    else (s, env, [])

/-- Source `runInventorySequence()` with the drain it actually calls. -/
def runInventorySequence (fuel : Nat) (env : Env) (s : Ctl) : InvResult :=
  runInventorySequenceWith (tryRunQueuedCommands fuel) env s

theorem runInventorySequence_fold (fuel : Nat) (env : Env) (s : Ctl) :
    runInventorySequenceWith (tryRunQueuedCommands fuel) env s =
    runInventorySequence fuel env s := rfl

/-- The raw-change tracker at the top of `updateBeamDebounce`. -/
def debounceShift (raw : Bool) (now : Nat) (s : Ctl) : Ctl :=
  if raw ≠ s.beamLastRawBlocked then
    { s with beamLastRawBlocked := raw, beamLastChangeMs := now }
  else s

/-- The dwell acceptance of `updateBeamDebounce`: once the raw level has
been stable for 20 ms it becomes the stable state; a stable transition to
blocked locks the gate and clears the rearm stamp, a stable transition to
open stamps the rearm timer. -/
def debounceAccept (raw : Bool) (now : Nat) (s : Ctl) : Ctl :=
  if 20 ≤ now - s.beamLastChangeMs then
    if raw = s.beamStableBlocked then { s with beamStableBlocked := raw }
    else if raw then
      { s with beamStableBlocked := true, gateLockout := true, gateOpenedAtMs := 0 }
    else { s with beamStableBlocked := false, gateOpenedAtMs := now }
  else s

/-- Both debounce phases of `updateBeamDebounce`. -/
def debouncePhase (raw : Bool) (now : Nat) (s : Ctl) : Ctl :=
  debounceAccept raw now (debounceShift raw now s)

/-- The rearm-expiry test of `updateBeamDebounce`: locked out, stably
open, a nonzero opened-at stamp, and 2000 ms elapsed. -/
def gateFire (now : Nat) (s : Ctl) : Bool :=
  s.gateLockout && !s.beamStableBlocked && decide (s.gateOpenedAtMs ≠ 0)
    && decide (2000 ≤ now - s.gateOpenedAtMs)

/-- The INVENTORY_PENDING entry of `updateBeamDebounce`: clear the
lockout and the rearm stamp, require an inventory. -/
def gatePendingEntry (s : Ctl) : Ctl :=
  { s with gateLockout := false, gateOpenedAtMs := 0, inventoryPending := true }

/-- Source `updateBeamDebounce()`: run both debounce phases; when the rearm timer
expires, clear the lockout, set `inventoryPending` and immediately drain
the queue. -/
def updateBeamDebounce (fuel : Nat) (raw : Bool) (now : Nat) (env : Env) (s : Ctl) :
    Ctl × Env × List QEvent :=
  if gateFire now (debouncePhase raw now s) then
    tryRunQueuedCommands fuel env (gatePendingEntry (debouncePhase raw now s))
  else (debouncePhase raw now s, env, [])

/-- The `bin#` dispatch arm of `loop()`: queue the request while locked
out or inventory-pending (overwriting any previous request), else move,
record `lastSelectedBin` on success, and re-lock if the beam reads
blocked right after the motion. -/
def handleBinCmd (fuel : Nat) (t : Int) (raw : Bool) (now : Nat) (env : Env) (s : Ctl) :
    Ctl × Env :=
  if s.gateLockout then ({ s with binRequested := true, requestedBin := t }, env)
  else if s.inventoryPending then ({ s with binRequested := true, requestedBin := t }, env)
  else
    match moveToBin t env s with
    | (false, s1, e1, _) => (s1, e1)
    | (true, s1, e1, _) =>
      match updateBeamDebounce fuel raw now e1 { s1 with lastSelectedBin := t } with
      | (s3, e3, _) =>
        if s3.beamStableBlocked then
          ({ s3 with gateLockout := true, gateOpenedAtMs := 0 }, e3)
        else (s3, e3)

/-- The `i` dispatch arm of `loop()`: always record the request; when the
gate is inventory-pending, open and not re-arming, clear the flag and run
the inventory immediately. -/
def handleICmd (fuel : Nat) (env : Env) (s : Ctl) : Ctl × Env :=
  if !s.inventoryPending then ({ s with inventoryRequested := true }, env)
  else if s.beamStableBlocked then ({ s with inventoryRequested := true }, env)
  else if s.gateLockout then ({ s with inventoryRequested := true }, env)
  else
    match runInventorySequence fuel env { s with inventoryRequested := false } with
    | r => (r.st, r.env)

/-- Source `printInventoryLogLine()` of the `.ino` sketch: the CSV-ready line
`bin<N>,<HI|LO>,<timestampMs>`, emitted only for a bin index in range. -/
def printInventoryLogLine (bin : Int) (isHI : Bool) (ts : Nat) : Option String :=
  if bin < 0 ∨ 3 < bin then none
  else some ("bin" ++ toString bin ++ "," ++ (if isHI then "HI" else "LO")
    ++ "," ++ toString ts)

/-- Discipline of one queue drain from state `s` to `s'` with event list
`tr`: request flags are never re-armed, an executed request has its flag
cleared, nothing executes without its flag, and `lastSelectedBin` is
updated exactly by a successful queued bin move. -/
structure DrainSpec (s s' : Ctl) (tr : List QEvent) : Prop where
  invReqMono : s'.inventoryRequested = true → s.inventoryRequested = true
  binReqMono : s'.binRequested = true →
    s.binRequested = true ∧ s'.requestedBin = s.requestedBin
  invExecClears : (∃ ok, QEvent.inv ok ∈ tr) → s'.inventoryRequested = false
  binExecClears : (∃ b ok, QEvent.bin b ok ∈ tr) →
    s'.binRequested = false ∧ s'.requestedBin = -1
  noInvUnlessReq : s.inventoryRequested = false → ∀ ok, QEvent.inv ok ∉ tr
  noBinUnlessReq : s.binRequested = false → ∀ b ok, QEvent.bin b ok ∉ tr
  binSuccessSel : ∀ b, QEvent.bin b true ∈ tr → s'.lastSelectedBin = b
  noBinSuccessSel : (∀ b, QEvent.bin b true ∉ tr) → s'.lastSelectedBin = s.lastSelectedBin
  binFailSel : ∀ b, QEvent.bin b false ∈ tr → s'.lastSelectedBin = s.lastSelectedBin

/-- Agreement of two states on the queue-visible fields. -/
def QFlagsEq (s s' : Ctl) : Prop :=
  s'.inventoryRequested = s.inventoryRequested ∧ s'.binRequested = s.binRequested ∧
  s'.requestedBin = s.requestedBin ∧ s'.lastSelectedBin = s.lastSelectedBin

theorem qflagsEq_rfl (s : Ctl) : QFlagsEq s s := ⟨rfl, rfl, rfl, rfl⟩

theorem qflagsEq_of_frame {s s' : Ctl} (h : MotionFrame s s') : QFlagsEq s s' := by
  unfold MotionFrame at h
  exact ⟨h.2.2.2.2.2.2.2.2.2.1, h.2.2.2.2.2.2.2.2.2.2.1, h.2.2.2.2.2.2.2.2.2.2.2.1,
    h.2.2.2.2.2.2.2.2.1⟩

theorem qflagsEq_trans {a b c : Ctl} (h1 : QFlagsEq a b) (h2 : QFlagsEq b c) :
    QFlagsEq a c := by
  unfold QFlagsEq at *
  refine ⟨?_, ?_, ?_, ?_⟩ <;> simp_all

theorem drainSpec_nil_of {s s' : Ctl} (h : QFlagsEq s s') : DrainSpec s s' [] := by
  obtain ⟨h1, h2, h3, h4⟩ := h
  refine ⟨?_, ?_, ?_, ?_, ?_, ?_, ?_, ?_, ?_⟩ <;> simp_all

theorem drainSpec_precompose {s s3 s' : Ctl} {tr : List QEvent}
    (h : QFlagsEq s s3) (hs : DrainSpec s3 s' tr) : DrainSpec s s' tr := by
  obtain ⟨h1, h2, h3, h4⟩ := h
  refine ⟨?_, ?_, hs.invExecClears, hs.binExecClears, ?_, ?_, hs.binSuccessSel, ?_, ?_⟩
  · intro hh; have := hs.invReqMono hh; rw [h1] at this; exact this
  · intro hh; have := hs.binReqMono hh; rw [h2, h3] at this; exact this
  · intro hh; exact hs.noInvUnlessReq (by rw [h1, hh])
  · intro hh; exact hs.noBinUnlessReq (by rw [h2, hh])
  · intro hh; have := hs.noBinSuccessSel hh; rw [h4] at this; exact this
  · intro b hb; have := hs.binFailSel b hb; rw [h4] at this; exact this

theorem readRobust_state_cases (blocks : List (Option ℚ)) (s : Ctl) :
    (readRobustDistance4sCm blocks s).st = s ∨
    (readRobustDistance4sCm blocks s).st = { s with estop := true } := by
  unfold readRobustDistance4sCm
  split
  · simp
  · split <;> simp

theorem readRobust_qflags (blocks : List (Option ℚ)) (s : Ctl) :
    QFlagsEq s (readRobustDistance4sCm blocks s).st := by
  rcases readRobust_state_cases blocks s with h | h <;> rw [h]
  · exact qflagsEq_rfl s
  · exact ⟨rfl, rfl, rfl, rfl⟩

theorem moveToBin_frame (t : Int) (env : Env) (s : Ctl) :
    MotionFrame s (moveToBin t env s).2.1 := by
  unfold moveToBin
  split
  · exact motionFrame_rfl s
  · split
    · exact motionFrame_rfl s
    · split
      · exact motionFrame_rfl s
      · exact moveBins_frame _ env s

theorem drainSpec_inv_lift {s : Ctl} {r : InvResult}
    (hreq : s.inventoryRequested = true)
    (hspec : DrainSpec { s with inventoryRequested := false } r.st r.trace) :
    DrainSpec s r.st (QEvent.inv r.ok :: r.trace) := by
  refine ⟨?_, ?_, ?_, ?_, ?_, ?_, ?_, ?_, ?_⟩
  · intro hh
    have := hspec.invReqMono hh
    simp at this
  · intro hh
    have := hspec.binReqMono hh
    exact this
  · intro hh
    by_cases hcase : r.st.inventoryRequested = true
    · have := hspec.invReqMono hcase
      simp at this
    · simpa using hcase
  · intro ⟨b, ok, hb⟩
    rcases List.mem_cons.mp hb with hb | hb
    · simp at hb
    · exact hspec.binExecClears ⟨b, ok, hb⟩
  · intro hh
    rw [hreq] at hh
    simp at hh
  · intro hh b ok hmem
    rcases List.mem_cons.mp hmem with hmem | hmem
    · simp at hmem
    · exact hspec.noBinUnlessReq (by simpa using hh) b ok hmem
  · intro b hb
    rcases List.mem_cons.mp hb with hb | hb
    · simp at hb
    · exact hspec.binSuccessSel b hb
  · intro hh
    have : ∀ b, QEvent.bin b true ∉ r.trace := by
      intro b hb
      exact hh b (List.mem_cons_of_mem _ hb)
    have := hspec.noBinSuccessSel this
    simpa using this
  · intro b hb
    rcases List.mem_cons.mp hb with hb | hb
    · simp at hb
    · have := hspec.binFailSel b hb
      simpa using this

theorem drain_zero (env : Env) (s : Ctl) :
    tryRunQueuedCommands 0 env s = (s, env, []) := by
  rw [tryRunQueuedCommands]

theorem drain_drainSpec_of (fuel : Nat)
    (hr : ∀ env s, DrainSpec s (runInventorySequence fuel env s).st
        (runInventorySequence fuel env s).trace) :
    ∀ env s, DrainSpec s (tryRunQueuedCommands (fuel+1) env s).1
      (tryRunQueuedCommands (fuel+1) env s).2.2 := by
  intro env s
  rw [tryRunQueuedCommands]
  split
  next hes => exact drainSpec_nil_of (qflagsEq_rfl s)
  next hes =>
    split
    next hcond =>
      have hreq : s.inventoryRequested = true := by
        simp only [Bool.and_eq_true] at hcond
        exact hcond.1.1.1
      exact drainSpec_inv_lift hreq (hr env { s with inventoryRequested := false })
    next hcond =>
      split
      next hcond2 =>
        have hbr : s.binRequested = true := by
          simp only [Bool.and_eq_true] at hcond2
          exact hcond2.1.1
        split
        next s2 e2 cnt heq =>
          have hframe : MotionFrame { s with binRequested := false, requestedBin := -1 } s2 := by
            have := moveToBin_frame s.requestedBin env
              { s with binRequested := false, requestedBin := -1 }
            rw [heq] at this
            exact this
          obtain ⟨q1, q2, q3, q4⟩ := qflagsEq_of_frame hframe
          refine ⟨?_, ?_, ?_, ?_, ?_, ?_, ?_, ?_, ?_⟩
          · intro hh
            simp only at hh
            rw [hh] at q1
            simp at q1
            exact q1
          · intro hh
            simp only at hh
            rw [hh] at q2
            simp at q2
          · intro ⟨ok, hmem⟩
            simp at hmem
          · intro hmem2
            exact ⟨by simpa using q2, by simpa using q3⟩
          · intro hh ok hmem
            simp at hmem
          · intro hh
            rw [hh] at hbr
            simp at hbr
          · intro b hb
            simp only [List.mem_singleton, QEvent.bin.injEq] at hb
            simp only
            rw [hb.1]
          · intro hnone
            exact absurd (List.mem_singleton_self _) (hnone s.requestedBin)
          · intro b hb
            simp at hb
        next s2 e2 cnt heq =>
          have hframe : MotionFrame { s with binRequested := false, requestedBin := -1 } s2 := by
            have := moveToBin_frame s.requestedBin env
              { s with binRequested := false, requestedBin := -1 }
            rw [heq] at this
            exact this
          obtain ⟨q1, q2, q3, q4⟩ := qflagsEq_of_frame hframe
          refine ⟨?_, ?_, ?_, ?_, ?_, ?_, ?_, ?_, ?_⟩
          · intro hh
            rw [hh] at q1
            simp at q1
            exact q1
          · intro hh
            rw [hh] at q2
            simp at q2
          · intro ⟨ok, hmem⟩
            simp at hmem
          · intro hmem2
            exact ⟨by simpa using q2, by simpa using q3⟩
          · intro hh ok hmem
            simp at hmem
          · intro hh
            rw [hh] at hbr
            simp at hbr
          · intro b hb
            simp at hb
          · intro hnone
            exact q4
          · intro b hb
            exact q4
      next hcond2 => exact drainSpec_nil_of (qflagsEq_rfl s)

theorem runInv_drainSpec_of (fuel : Nat)
    (hd : ∀ env s, DrainSpec s (tryRunQueuedCommands fuel env s).1
        (tryRunQueuedCommands fuel env s).2.2) :
    ∀ env s, DrainSpec s (runInventorySequence fuel env s).st
      (runInventorySequence fuel env s).trace := by
  intro env s
  unfold runInventorySequence runInventorySequenceWith
  split
  · exact drainSpec_nil_of (qflagsEq_rfl s)
  split
  · exact drainSpec_nil_of (qflagsEq_rfl s)
  split
  · exact drainSpec_nil_of (qflagsEq_rfl s)
  split
  · exact drainSpec_nil_of (qflagsEq_rfl s)
  split
  next s1 e1 cnt heq =>
    have hframe : MotionFrame s s1 := by
      have := moveBins_frame 2 env s
      rw [heq] at this
      exact this
    exact drainSpec_nil_of (qflagsEq_of_frame hframe)
  next s1 e1 cnt heq =>
    have hframe : MotionFrame s s1 := by
      have := moveBins_frame 2 env s
      rw [heq] at this
      exact this
    split
    next blocks e2 heq2 =>
      split
      next d st1 meds2 ab2 heq3 =>
        have hq1 : QFlagsEq s st1 := by
          have h1 : QFlagsEq s (readRobustDistance4sCm blocks s1).st :=
            qflagsEq_trans (qflagsEq_of_frame hframe) (readRobust_qflags blocks s1)
          rw [heq3] at h1
          exact h1
        split
        next hes => exact drainSpec_nil_of hq1
        next hes =>
          split
          next s4 e4 tr heq4 =>
            have hq : QFlagsEq s { st1 with inventoryPending := false } :=
              qflagsEq_trans hq1 ⟨rfl, rfl, rfl, rfl⟩
            have hds := hd e2 { st1 with inventoryPending := false }
            rw [heq4] at hds
            exact drainSpec_precompose hq hds

theorem queue_discipline (fuel : Nat) :
    (∀ env s, DrainSpec s (tryRunQueuedCommands fuel env s).1
      (tryRunQueuedCommands fuel env s).2.2) ∧
    (∀ env s, DrainSpec s (runInventorySequence fuel env s).st
      (runInventorySequence fuel env s).trace) := by
  induction fuel with
  | zero =>
    have h0 : ∀ env s, DrainSpec s (tryRunQueuedCommands 0 env s).1
        (tryRunQueuedCommands 0 env s).2.2 := by
      intro env s
      rw [drain_zero]
      exact drainSpec_nil_of (qflagsEq_rfl s)
    exact ⟨h0, runInv_drainSpec_of 0 h0⟩
  | succ n ih =>
    have h1 := drain_drainSpec_of n ih.2
    exact ⟨h1, runInv_drainSpec_of (n+1) h1⟩

theorem binAdvance_range {c : Int} (h0 : 0 ≤ c) (h3 : c ≤ 3) :
    0 ≤ binAdvance c ∧ binAdvance c ≤ 3 := by
  unfold binAdvance
  split <;> omega

theorem motionFrame_estop {s s' : Ctl} (h : MotionFrame s s') :
    s.estop = true → s'.estop = true :=
  h.2.2.2.2.2.2.2.2.2.2.2.2

/-- C7: once a queued inventory or bin request has been executed by a
drain its flag is false and a second drain does not execute it again; a
drain never executes a request whose flag is not set; and a fresh bin
command while the gate refuses it overwrites the single queued slot. -/
theorem queue_drain_idempotent (fuel fuel2 : Nat) (env env2 : Env) (s : Ctl)
    (t : Int) (raw : Bool) (now : Nat) :
    ((∃ ok, QEvent.inv ok ∈ (tryRunQueuedCommands fuel env s).2.2) →
      (tryRunQueuedCommands fuel env s).1.inventoryRequested = false) ∧
    ((∃ b ok, QEvent.bin b ok ∈ (tryRunQueuedCommands fuel env s).2.2) →
      (tryRunQueuedCommands fuel env s).1.binRequested = false) ∧
    (s.inventoryRequested = false →
      ∀ ok, QEvent.inv ok ∉ (tryRunQueuedCommands fuel env s).2.2) ∧
    (s.binRequested = false →
      ∀ b ok, QEvent.bin b ok ∉ (tryRunQueuedCommands fuel env s).2.2) ∧
    ((∃ ok, QEvent.inv ok ∈ (tryRunQueuedCommands fuel env s).2.2) →
      ∀ ok, QEvent.inv ok ∉
        (tryRunQueuedCommands fuel2 env2 (tryRunQueuedCommands fuel env s).1).2.2) ∧
    ((∃ b ok, QEvent.bin b ok ∈ (tryRunQueuedCommands fuel env s).2.2) →
      ∀ b ok, QEvent.bin b ok ∉
        (tryRunQueuedCommands fuel2 env2 (tryRunQueuedCommands fuel env s).1).2.2) ∧
    ((s.gateLockout = true ∨ s.inventoryPending = true) →
      handleBinCmd fuel t raw now env s =
        ({ s with binRequested := true, requestedBin := t }, env)) := by
  have h1 := (queue_discipline fuel).1 env s
  refine ⟨h1.invExecClears, fun hm => (h1.binExecClears hm).1, h1.noInvUnlessReq,
    h1.noBinUnlessReq, ?_, ?_, ?_⟩
  · intro hm
    exact ((queue_discipline fuel2).1 env2 _).noInvUnlessReq (h1.invExecClears hm)
  · intro hm
    exact ((queue_discipline fuel2).1 env2 _).noBinUnlessReq (h1.binExecClears hm).1
  · intro hcase
    unfold handleBinCmd
    rcases hcase with hg | hp
    · simp [hg]
    · by_cases hg : s.gateLockout = true
      · simp [hg]
      · simp only [Bool.not_eq_true] at hg
        simp [hg, hp]

/-- Queue fixture: homed at BIN0 with an inventory queued and pending. -/
def qStateW : Ctl :=
  ⟨false, true, 0, 240, false, false, 0, false, 0, true, 0, true, false, -1⟩

/-- Oracle for one queued inventory run: two seeks for the rotation, one
empty measurement window (an undefined reading still completes the run). -/
def qEnvW : Env := ⟨[.ok 1, .ok 1], [], [[]]⟩

theorem queue_drain_idempotent_witness :
    (tryRunQueuedCommands 2 qEnvW qStateW).1.inventoryRequested = false ∧
    ∀ ok, QEvent.inv ok ∉
      (tryRunQueuedCommands 2 ⟨[], [], []⟩
        (tryRunQueuedCommands 2 qEnvW qStateW).1).2.2 :=
  ⟨(queue_drain_idempotent 2 2 qEnvW ⟨[], [], []⟩ qStateW 0 false 0).1
      ⟨true, by decide⟩,
   (queue_drain_idempotent 2 2 qEnvW ⟨[], [], []⟩ qStateW 0 false 0).2.2.2.2.1
      ⟨true, by decide⟩⟩

/-- C10: a queued request that fails during automatic execution is
discarded, not retried: after a drain whose bin request failed the flag
and payload are cleared and `lastSelectedBin` is untouched; an executed
inventory request leaves its flag false whatever its outcome; and
`lastSelectedBin` is updated (to the queued target) only on success. -/
theorem failed_queued_request_discarded (fuel : Nat) (env : Env) (s : Ctl) :
    (∀ b, QEvent.bin b false ∈ (tryRunQueuedCommands fuel env s).2.2 →
      (tryRunQueuedCommands fuel env s).1.binRequested = false ∧
      (tryRunQueuedCommands fuel env s).1.requestedBin = -1 ∧
      (tryRunQueuedCommands fuel env s).1.lastSelectedBin = s.lastSelectedBin) ∧
    ((∃ ok, QEvent.inv ok ∈ (tryRunQueuedCommands fuel env s).2.2) →
      (tryRunQueuedCommands fuel env s).1.inventoryRequested = false) ∧
    (∀ b, QEvent.bin b true ∈ (tryRunQueuedCommands fuel env s).2.2 →
      (tryRunQueuedCommands fuel env s).1.lastSelectedBin = b ∧
      (tryRunQueuedCommands fuel env s).1.binRequested = false) := by
  have h1 := (queue_discipline fuel).1 env s
  refine ⟨?_, h1.invExecClears, ?_⟩
  · intro b hb
    obtain ⟨hflag, hpay⟩ := h1.binExecClears ⟨b, false, hb⟩
    exact ⟨hflag, hpay, h1.binFailSel b hb⟩
  · intro b hb
    exact ⟨h1.binSuccessSel b hb, (h1.binExecClears ⟨b, true, hb⟩).1⟩

/-- Queue fixture: an out-of-range queued bin request that will fail. -/
def qFailStateW : Ctl :=
  ⟨false, true, 0, 240, false, false, 0, false, 0, false, 1, false, true, 5⟩

theorem failed_queued_request_discarded_witness :
    (tryRunQueuedCommands 1 ⟨[], [], []⟩ qFailStateW).1.binRequested = false ∧
    (tryRunQueuedCommands 1 ⟨[], [], []⟩ qFailStateW).1.requestedBin = -1 ∧
    (tryRunQueuedCommands 1 ⟨[], [], []⟩ qFailStateW).1.lastSelectedBin =
      qFailStateW.lastSelectedBin :=
  (failed_queued_request_discarded 1 ⟨[], [], []⟩ qFailStateW).1 5 (by decide)

theorem drain_noPending_trace (fuel : Nat) (env : Env) (s3 : Ctl)
    (hp : s3.inventoryPending = false) (hc0 : 0 ≤ s3.currentBin)
    (hc3 : s3.currentBin ≤ 3) :
    (tryRunQueuedCommands fuel env s3).2.2 = [] ∨
    (∃ ok2, (tryRunQueuedCommands fuel env s3).2.2 = [QEvent.bin s3.requestedBin ok2] ∧
      (ok2 = true → (tryRunQueuedCommands fuel env s3).1.currentBin = s3.requestedBin)) := by
  cases fuel with
  | zero =>
    left
    rw [drain_zero]
  | succ n =>
    rw [tryRunQueuedCommands]
    split
    · left; rfl
    · split
      next hcond =>
        simp only [Bool.and_eq_true] at hcond
        rw [hp] at hcond
        simp at hcond
      next hcond =>
        split
        next hcond2 =>
          split
          next s2 e2 cnt heq =>
            right
            refine ⟨true, rfl, ?_⟩
            intro _
            obtain ⟨hbin, -⟩ := moveToBin_ok (by simpa using hc0) (by simpa using hc3) heq
            simpa using hbin
          next s2 e2 cnt heq =>
            right
            exact ⟨false, rfl, by simp⟩
        next hcond2 => left; rfl

theorem runInv_trace_cases (fuel : Nat) (env : Env) (s : Ctl)
    (hc0 : 0 ≤ s.currentBin) (hc3 : s.currentBin ≤ 3) :
    (runInventorySequence fuel env s).trace = [] ∨
    (∃ ok2, (runInventorySequence fuel env s).trace = [QEvent.bin s.requestedBin ok2] ∧
      (runInventorySequence fuel env s).ok = true ∧
      (ok2 = true → (runInventorySequence fuel env s).st.currentBin = s.requestedBin)) := by
  unfold runInventorySequence runInventorySequenceWith
  split
  · left; rfl
  split
  · left; rfl
  split
  · left; rfl
  split
  · left; rfl
  split
  next s1 e1 cnt heq => left; rfl
  next s1 e1 cnt heq =>
    have hframe : MotionFrame s s1 := by
      have := moveBins_frame 2 env s
      rw [heq] at this
      exact this
    have hrange : 0 ≤ s1.currentBin ∧ s1.currentBin ≤ 3 := by
      obtain ⟨hbin, -⟩ := moveBins_ok heq
      have hr1 := binAdvance_range hc0 hc3
      have hr2 := binAdvance_range hr1.1 hr1.2
      rw [hbin]
      have : binAdvance^[2] s.currentBin = binAdvance (binAdvance s.currentBin) := by
        rw [show (2:Nat) = 1 + 1 from rfl, Function.iterate_add_apply]
        simp
      rw [this]
      exact hr2
    obtain ⟨-, -, hq3, -⟩ := qflagsEq_of_frame hframe
    split
    next blocks e2 heq2 =>
      split
      next d st1 meds2 ab2 heq3 =>
        have hst1 : st1 = s1 ∨ st1 = { s1 with estop := true } := by
          have := readRobust_state_cases blocks s1
          rw [heq3] at this
          simpa using this
        have hcb : st1.currentBin = s1.currentBin := by
          rcases hst1 with h | h <;> rw [h]
        have hrq : st1.requestedBin = s1.requestedBin := by
          rcases hst1 with h | h <;> rw [h]
        split
        · left; rfl
        next hes =>
          have hdrain := drain_noPending_trace fuel e2 { st1 with inventoryPending := false }
            rfl (by simpa [hcb] using hrange.1) (by simpa [hcb] using hrange.2)
          split
          next s4 e4 tr heq4 =>
            rw [heq4] at hdrain
            simp only at hdrain
            rcases hdrain with hnil | ⟨ok2, htr, himp⟩
            · left
              simpa using hnil
            · right
              refine ⟨ok2, ?_, rfl, ?_⟩
              · have : ({ st1 with inventoryPending := false } : Ctl).requestedBin =
                    s.requestedBin := by
                  simp [hrq, hq3]
                rw [← this]
                simpa using htr
              · intro hok2
                have h5 := himp hok2
                have : ({ st1 with inventoryPending := false } : Ctl).requestedBin =
                    s.requestedBin := by
                  simp [hrq, hq3]
                rw [← this]
                simpa using h5

/-- C8: while the gate is INVENTORY_PENDING, a drain never starts with the
queued bin request: its event list is empty, or runs only the queued
inventory, or runs the inventory first (successfully, clearing the
pending state) and only then the queued bin request, which on success
leaves `currentBin` at the queued target. -/
theorem deferred_bin_waits_for_inventory (fuel : Nat) (env : Env) (s : Ctl)
    (hp : s.inventoryPending = true) (hc0 : 0 ≤ s.currentBin)
    (hc3 : s.currentBin ≤ 3) :
    (tryRunQueuedCommands fuel env s).2.2 = [] ∨
    (∃ ok, (tryRunQueuedCommands fuel env s).2.2 = [QEvent.inv ok]) ∨
    (∃ ok2, (tryRunQueuedCommands fuel env s).2.2 =
        [QEvent.inv true, QEvent.bin s.requestedBin ok2] ∧
      (ok2 = true → (tryRunQueuedCommands fuel env s).1.currentBin = s.requestedBin)) := by
  cases fuel with
  | zero =>
    left
    rw [drain_zero]
  | succ n =>
    rw [tryRunQueuedCommands]
    split
    · left; rfl
    · split
      next hcond =>
        simp only [runInventorySequence_fold]
        have hcases := runInv_trace_cases n env { s with inventoryRequested := false }
          (by simpa using hc0) (by simpa using hc3)
        rcases hcases with hnil | ⟨ok2, htr, hok, himp⟩
        · right; left
          exact ⟨(runInventorySequence n env { s with inventoryRequested := false }).ok,
            by simp [hnil]⟩
        · right; right
          refine ⟨ok2, ?_, ?_⟩
          · simp only [List.cons.injEq]
            refine ⟨by rw [hok], by simpa using htr⟩
          · intro hok2
            simpa using himp hok2
      next hcond =>
        split
        next hcond2 =>
          simp only [Bool.and_eq_true] at hcond2
          rw [hp] at hcond2
          simp at hcond2
        next hcond2 => left; rfl

/-- Scenario fixture for the deferred ordering: inventory and BIN2 both
queued while INVENTORY_PENDING; the oracle lets the rotation succeed and
the measurement window return no echoes. -/
def c8StateW : Ctl :=
  ⟨false, true, 0, 240, false, false, 0, false, 0, true, 0, true, true, 2⟩

def c8EnvW : Env := ⟨[.ok 1, .ok 1], [], [[]]⟩

theorem deferred_bin_waits_for_inventory_witness :
    ((tryRunQueuedCommands 2 c8EnvW c8StateW).2.2 =
        [QEvent.inv true, QEvent.bin 2 true] ∧
      (tryRunQueuedCommands 2 c8EnvW c8StateW).1.currentBin = 2) ∧
    ((tryRunQueuedCommands 2 c8EnvW c8StateW).2.2 = [] ∨
      (∃ ok, (tryRunQueuedCommands 2 c8EnvW c8StateW).2.2 = [QEvent.inv ok]) ∨
      (∃ ok2, (tryRunQueuedCommands 2 c8EnvW c8StateW).2.2 =
          [QEvent.inv true, QEvent.bin c8StateW.requestedBin ok2] ∧
        (ok2 = true →
          (tryRunQueuedCommands 2 c8EnvW c8StateW).1.currentBin =
            c8StateW.requestedBin))) :=
  ⟨by decide,
   deferred_bin_waits_for_inventory 2 c8EnvW c8StateW (by decide) (by decide) (by decide)⟩

theorem debounceShift_quiet (raw : Bool) (now : Nat) (s : Ctl) :
    (debounceShift raw now s).inventoryPending = s.inventoryPending ∧
    (debounceShift raw now s).estop = s.estop ∧
    (debounceShift raw now s).beamStableBlocked = s.beamStableBlocked ∧
    (debounceShift raw now s).gateLockout = s.gateLockout ∧
    (debounceShift raw now s).gateOpenedAtMs = s.gateOpenedAtMs := by
  unfold debounceShift
  split <;> simp

theorem debounceAccept_quiet (raw : Bool) (now : Nat) (s : Ctl) :
    (debounceAccept raw now s).inventoryPending = s.inventoryPending ∧
    (debounceAccept raw now s).estop = s.estop := by
  unfold debounceAccept
  split
  · split
    · simp
    · split <;> simp
  · simp

theorem debouncePhase_quiet (raw : Bool) (now : Nat) (s : Ctl) :
    (debouncePhase raw now s).inventoryPending = s.inventoryPending ∧
    (debouncePhase raw now s).estop = s.estop := by
  unfold debouncePhase
  obtain ⟨h1, h2, -, -, -⟩ := debounceShift_quiet raw now s
  obtain ⟨h3, h4⟩ := debounceAccept_quiet raw now (debounceShift raw now s)
  exact ⟨h3.trans h1, h4.trans h2⟩

theorem debouncePhase_gate_cases (raw : Bool) (now : Nat) (s : Ctl) :
    ((debouncePhase raw now s).gateLockout = s.gateLockout ∧
     (debouncePhase raw now s).beamStableBlocked = s.beamStableBlocked ∧
     (debouncePhase raw now s).gateOpenedAtMs = s.gateOpenedAtMs) ∨
    ((debouncePhase raw now s).beamStableBlocked = true) ∨
    ((debouncePhase raw now s).gateOpenedAtMs = now ∧
     (debouncePhase raw now s).gateLockout = s.gateLockout ∧
     (debouncePhase raw now s).beamStableBlocked = false) := by
  obtain ⟨-, -, hb, hl, ho⟩ := debounceShift_quiet raw now s
  unfold debouncePhase
  unfold debounceAccept
  split
  · split
    next hsame =>
      left
      exact ⟨by simpa using hl, hsame.trans hb, by simpa using ho⟩
    · split
      next hraw =>
        right; left
        simp
      next hraw =>
        right; right
        simp only [Bool.not_eq_true] at hraw
        exact ⟨by simp, by simpa using hl, by simp⟩
  · left
    exact ⟨hl, hb, ho⟩

theorem gateFire_pre (raw : Bool) (now : Nat) (s : Ctl)
    (h : gateFire now (debouncePhase raw now s) = true) :
    s.gateLockout = true ∧ s.beamStableBlocked = false ∧ s.gateOpenedAtMs ≠ 0 ∧
    2000 ≤ now - s.gateOpenedAtMs := by
  unfold gateFire at h
  simp only [Bool.and_eq_true, Bool.not_eq_eq_eq_not, Bool.not_true,
    decide_eq_true_eq] at h
  obtain ⟨⟨⟨hL, hB⟩, hO⟩, hT⟩ := h
  rcases debouncePhase_gate_cases raw now s with ⟨c1, c2, c3⟩ | hblk | ⟨c1, c2, c3⟩
  · rw [c1] at hL
    rw [c2] at hB
    rw [c3] at hO hT
    exact ⟨hL, hB, hO, hT⟩
  · rw [hblk] at hB
    simp at hB
  · rw [c1] at hO hT
    omega

/-- C3: `inventoryPending` is set by `updateBeamDebounce` only from the
re-arming configuration (gate locked out, beam stably open, nonzero
opened-at stamp) once 2000 ms have elapsed since the stable-open
transition, never directly from a blocked beam; and a stable transition
of the beam to blocked unconditionally locks the gate and clears the
rearm stamp, whatever state the gate was in. -/
theorem gate_pending_only_from_rearming (fuel : Nat) (raw : Bool) (now : Nat)
    (env : Env) (s : Ctl) :
    (s.inventoryPending = false →
      (updateBeamDebounce fuel raw now env s).1.inventoryPending = true →
      s.gateLockout = true ∧ s.beamStableBlocked = false ∧ s.gateOpenedAtMs ≠ 0 ∧
      2000 ≤ now - s.gateOpenedAtMs) ∧
    (raw = true → s.beamLastRawBlocked = true → s.beamStableBlocked = false →
      20 ≤ now - s.beamLastChangeMs →
      (updateBeamDebounce fuel raw now env s).1.beamStableBlocked = true ∧
      (updateBeamDebounce fuel raw now env s).1.gateLockout = true ∧
      (updateBeamDebounce fuel raw now env s).1.gateOpenedAtMs = 0) := by
  constructor
  · intro hp0 hp1
    by_cases hf : gateFire now (debouncePhase raw now s) = true
    · exact gateFire_pre raw now s hf
    · unfold updateBeamDebounce at hp1
      rw [if_neg hf] at hp1
      have hq := (debouncePhase_quiet raw now s).1
      simp only at hp1
      rw [hq, hp0] at hp1
      simp at hp1
  · intro hraw hlast hstable hdwell
    have hdp : debouncePhase raw now s =
        { s with beamStableBlocked := true, gateLockout := true, gateOpenedAtMs := 0 } := by
      unfold debouncePhase debounceShift debounceAccept
      rw [hraw]
      simp [hdwell, hstable, hlast]
    unfold updateBeamDebounce
    rw [hdp]
    have hfire : gateFire now ({ s with beamStableBlocked := true, gateLockout := true, gateOpenedAtMs := 0 } : Ctl) = false := by
      unfold gateFire
      simp
    rw [hfire]
    simp

/-- Fixture: gate re-arming (stably open for longer than the arm delay). -/
def rearmStateW : Ctl :=
  ⟨false, true, 0, 240, false, false, 0, true, 100, false, 0, false, false, -1⟩

/-- Fixture: beam raw-blocked past the debounce dwell, gate previously
open and inventory pending. -/
def blockStateW : Ctl :=
  ⟨false, true, 0, 240, false, true, 0, false, 50, true, 0, false, false, -1⟩

theorem gate_pending_only_from_rearming_witness :
    (rearmStateW.gateLockout = true ∧ rearmStateW.beamStableBlocked = false ∧
      rearmStateW.gateOpenedAtMs ≠ 0 ∧ 2000 ≤ 2200 - rearmStateW.gateOpenedAtMs) ∧
    ((updateBeamDebounce 1 true 100 ⟨[], [], []⟩ blockStateW).1.beamStableBlocked = true ∧
      (updateBeamDebounce 1 true 100 ⟨[], [], []⟩ blockStateW).1.gateLockout = true ∧
      (updateBeamDebounce 1 true 100 ⟨[], [], []⟩ blockStateW).1.gateOpenedAtMs = 0) :=
  ⟨(gate_pending_only_from_rearming 1 false 2200 ⟨[], [], []⟩ rearmStateW).1
      (by decide) (by decide),
   (gate_pending_only_from_rearming 1 true 100 ⟨[], [], []⟩ blockStateW).2
      rfl (by decide) (by decide) (by decide)⟩

theorem runInv_logArgs_spec {fuel : Nat} {env : Env} {s : Ctl}
    {ok : Bool} {st : Ctl} {e : Env} {tr : List QEvent}
    {dM : Option (Option ℚ)} {lA : Option (Int × Bool)}
    (hr : runInventorySequence fuel env s = ⟨ok, st, e, tr, dM, lA⟩)
    {n : Int} {hi : Bool} (hlog : lA = some (n, hi)) :
    n = s.lastSelectedBin ∧ 0 ≤ n ∧ n ≤ 3 ∧
    ∃ d, dM = some d ∧
      hi = (match d with | none => false | some q => decide (q < 12)) := by
  unfold runInventorySequence runInventorySequenceWith at hr
  split at hr
  · simp only [InvResult.mk.injEq] at hr
    rw [← hr.2.2.2.2.2] at hlog
    simp at hlog
  split at hr
  · simp only [InvResult.mk.injEq] at hr
    rw [← hr.2.2.2.2.2] at hlog
    simp at hlog
  split at hr
  · simp only [InvResult.mk.injEq] at hr
    rw [← hr.2.2.2.2.2] at hlog
    simp at hlog
  split at hr
  next hsel =>
    simp only [InvResult.mk.injEq] at hr
    rw [← hr.2.2.2.2.2] at hlog
    simp at hlog
  next hsel =>
    push_neg at hsel
    split at hr
    next s1 e1 cnt heq =>
      simp only [InvResult.mk.injEq] at hr
      rw [← hr.2.2.2.2.2] at hlog
      simp at hlog
    next s1 e1 cnt heq =>
      split at hr
      next blocks e2 heq2 =>
        split at hr
        next d st1 m2 a2 heq3 =>
          split at hr
          · simp only [InvResult.mk.injEq] at hr
            rw [← hr.2.2.2.2.2] at hlog
            simp at hlog
          next hes =>
            split at hr
            next s4 e4 tr4 heq4 =>
              simp only [InvResult.mk.injEq] at hr
              rw [← hr.2.2.2.2.2] at hlog
              simp only [Option.some.injEq, Prod.mk.injEq] at hlog
              obtain ⟨hn, hhi⟩ := hlog
              refine ⟨hn.symm, by omega, by omega, d, ?_, hhi.symm⟩
              rw [← hr.2.2.2.2.1]

/-- C5: whenever the inventory sequencer reports a classification, it is
`HI` exactly when the measured distance is defined and strictly below
12 cm, the fail-safe default `LO` for an undefined reading; and the
machine-parsable line carries the last-selected bin in the format
`bin<N>,<HI|LO>,<timestampMs>`. -/
theorem inventory_classification_and_log (fuel : Nat) (env : Env) (s : Ctl) :
    ∀ n hi, (runInventorySequence fuel env s).logArgs = some (n, hi) →
      n = s.lastSelectedBin ∧ 0 ≤ n ∧ n ≤ 3 ∧
      (∀ d, (runInventorySequence fuel env s).dMeasured = some d →
        hi = (match d with | none => false | some q => decide (q < 12))) ∧
      (∀ ts : Nat, printInventoryLogLine n hi ts =
        some ("bin" ++ toString n ++ "," ++ (if hi then "HI" else "LO")
          ++ "," ++ toString ts)) := by
  intro n hi hlog
  have hr : runInventorySequence fuel env s = ⟨(runInventorySequence fuel env s).ok,
      (runInventorySequence fuel env s).st, (runInventorySequence fuel env s).env,
      (runInventorySequence fuel env s).trace, (runInventorySequence fuel env s).dMeasured,
      (runInventorySequence fuel env s).logArgs⟩ := rfl
  obtain ⟨h1, h2, h3, d0, hd0, hhi⟩ := runInv_logArgs_spec hr hlog
  refine ⟨h1, h2, h3, ?_, ?_⟩
  · intro d hd
    rw [hd0] at hd
    simp only [Option.some.injEq] at hd
    rw [← hd]
    exact hhi
  · intro ts
    unfold printInventoryLogLine
    rw [if_neg (by omega)]

/-- Fixture: a ready inventory run whose measurement window returns no
valid block medians (an undefined reading). -/
def invStateW : Ctl :=
  ⟨false, true, 0, 240, false, false, 0, false, 0, true, 0, false, false, -1⟩

def invEnvW : Env := ⟨[.ok 1, .ok 1], [], [[]]⟩

theorem inventory_classification_and_log_witness :
    (runInventorySequence 1 invEnvW invStateW).logArgs = some (0, false) ∧
    printInventoryLogLine 0 false 5 = some "bin0,LO,5" := by
  refine ⟨by decide, ?_⟩
  have h := inventory_classification_and_log 1 invEnvW invStateW 0 false (by decide)
  rw [h.2.2.2.2 5]
  decide

theorem drain_estop_mono (fuel : Nat) (env : Env) (s : Ctl) (h : s.estop = true) :
    (tryRunQueuedCommands fuel env s).1.estop = true := by
  cases fuel with
  | zero =>
    rw [drain_zero]
    exact h
  | succ n =>
    rw [tryRunQueuedCommands]
    rw [if_pos h]
    exact h

theorem runInv_estop_mono (fuel : Nat) (env : Env) (s : Ctl) (h : s.estop = true) :
    (runInventorySequence fuel env s).st.estop = true := by
  unfold runInventorySequence runInventorySequenceWith
  split
  · exact h
  split
  · exact h
  split
  · exact h
  split
  · exact h
  split
  next s1 e1 cnt heq =>
    exact motionFrame_estop
      (by have := moveBins_frame 2 env s; rw [heq] at this; exact this) h
  next s1 e1 cnt heq =>
    have h1 : s1.estop = true := motionFrame_estop
      (by have := moveBins_frame 2 env s; rw [heq] at this; exact this) h
    split
    next blocks e2 heq2 =>
      split
      next d st1 m2 a2 heq3 =>
        have hst1 : st1.estop = true := by
          have hc := readRobust_state_cases blocks s1
          rw [heq3] at hc
          simp only at hc
          rcases hc with hc | hc
          · rw [hc]; exact h1
          · rw [hc]
        split
        next hes => exact hst1
        next hes => exact absurd hst1 hes

theorem updateBeam_estop_mono (fuel : Nat) (raw : Bool) (now : Nat) (env : Env)
    (s : Ctl) (h : s.estop = true) :
    (updateBeamDebounce fuel raw now env s).1.estop = true := by
  have hq := (debouncePhase_quiet raw now s).2
  unfold updateBeamDebounce
  split
  · apply drain_estop_mono
    unfold gatePendingEntry
    simp only
    rw [hq]
    exact h
  · simp only
    rw [hq]
    exact h

theorem handleBin_estop_mono (fuel : Nat) (t : Int) (raw : Bool) (now : Nat)
    (env : Env) (s : Ctl) (h : s.estop = true) :
    (handleBinCmd fuel t raw now env s).1.estop = true := by
  unfold handleBinCmd
  split
  · exact h
  split
  · exact h
  split
  next s1 e1 cnt heq =>
    exact motionFrame_estop
      (by have := moveToBin_frame t env s; rw [heq] at this; exact this) h
  next s1 e1 cnt heq =>
    have h1 : s1.estop = true := motionFrame_estop
      (by have := moveToBin_frame t env s; rw [heq] at this; exact this) h
    split
    next s3 e3 tr3 heq2 =>
      have h3 : s3.estop = true := by
        have := updateBeam_estop_mono fuel raw now e1
          { s1 with lastSelectedBin := t } (by simpa using h1)
        rw [heq2] at this
        exact this
      split
      · simpa using h3
      · exact h3

theorem handleI_estop_mono (fuel : Nat) (env : Env) (s : Ctl) (h : s.estop = true) :
    (handleICmd fuel env s).1.estop = true := by
  unfold handleICmd
  split
  · exact h
  split
  · exact h
  split
  · exact h
  exact runInv_estop_mono fuel env _ (by simpa using h)

/-- C1 amended: once observed set, the e-stop latch is preserved by every
queue, gate, inventory, motion, measurement and command-dispatch
operation; the single exception is `homeRoutine`, whose initializer
unconditionally writes `estop = false` at the start of every homing
attempt, so re-homing is the one software path that clears the latch. -/
theorem estop_cleared_only_by_homing (fuel : Nat) (raw : Bool) (now : Nat)
    (t : Int) (env : Env) (blocks : List (Option ℚ)) (s : Ctl)
    (h : s.estop = true) :
    (tryRunQueuedCommands fuel env s).1.estop = true ∧
    (runInventorySequence fuel env s).st.estop = true ∧
    (updateBeamDebounce fuel raw now env s).1.estop = true ∧
    (moveOneBin env s).2.1.estop = true ∧
    (moveToBin t env s).2.1.estop = true ∧
    (readRobustDistance4sCm blocks s).st.estop = true ∧
    (handleBinCmd fuel t raw now env s).1.estop = true ∧
    (handleICmd fuel env s).1.estop = true ∧
    (homeRoutine ⟨[], [], []⟩ s).st.estop = false :=
  ⟨drain_estop_mono fuel env s h,
   runInv_estop_mono fuel env s h,
   updateBeam_estop_mono fuel raw now env s h,
   motionFrame_estop (moveOneBin_frame env s) h,
   motionFrame_estop (moveToBin_frame t env s) h,
   by rcases readRobust_state_cases blocks s with hc | hc <;> rw [hc] <;> simp [h],
   handleBin_estop_mono fuel t raw now env s h,
   handleI_estop_mono fuel env s h,
   rfl⟩

theorem estop_cleared_only_by_homing_witness :
    (tryRunQueuedCommands 1 ⟨[], [], []⟩ estopStateW).1.estop = true ∧
    (runInventorySequence 1 ⟨[], [], []⟩ estopStateW).st.estop = true ∧
    (updateBeamDebounce 1 false 0 ⟨[], [], []⟩ estopStateW).1.estop = true ∧
    (moveOneBin ⟨[], [], []⟩ estopStateW).2.1.estop = true ∧
    (moveToBin 2 ⟨[], [], []⟩ estopStateW).2.1.estop = true ∧
    (readRobustDistance4sCm [] estopStateW).st.estop = true ∧
    (handleBinCmd 1 2 false 0 ⟨[], [], []⟩ estopStateW).1.estop = true ∧
    (handleICmd 1 ⟨[], [], []⟩ estopStateW).1.estop = true ∧
    (homeRoutine ⟨[], [], []⟩ estopStateW).st.estop = false :=
  estop_cleared_only_by_homing 1 false 0 2 ⟨[], [], []⟩ [] estopStateW (by decide)

end Carousel
